import Mathlib

/-!
Verification development for the robodm trajectory container
(`src/robodm/trajectory.py`).  The Python source is shallowly embedded:
pure functions become Lean functions, the stateful `Trajectory` writer
becomes explicit state passing on a `Traj` record, the PyAV container is
modelled as a list of streams plus the list of muxed packets, and
fallible operations return `Except`.  Timestamps are modelled as integer
milliseconds (the container time base is 1/1000, so a packet's stored
pts/dts is an integer tick count; `_get_current_timestamp` returns
milliseconds of wall time since the trajectory start).  The ffv1 and
libaom-av1 encoders of the external PyAV library are modelled as
stateless lossless frame codecs: each submitted frame yields exactly one
packet immediately and draining (`stream.encode(None)`) yields nothing;
the repository's own code never relies on encoder buffering, and for
`rawvideo` streams packets are built directly with `av.Packet`, so their
encoder is never fed and its drain raises (caught and logged in
`close`).
-/

namespace Robodm

/-- Element dtypes of a feature.  Modelled from the spec: the
`FeatureType` class lives in `robodm/feature.py`, which is not part of
the provided sources; the spec (§3, §4.1) fixes the dtype vocabulary. -/
inductive Dtype where
  | uint8
  | float32
  | float64
  | int32
  | int64
  | boolT
  | strT
  deriving DecidableEq, Repr

/-- Modelled from the spec: (dtype, shape) descriptor of a feature's
element (`robodm/feature.py` is absent from the sources; spec §3/§4.1). -/
structure FeatureType where
  dtype : Dtype
  shape : List Nat
  deriving DecidableEq, Repr

/-- A feature value: either an n-dimensional numeric array (shape plus
row-major flattened data, numbers modelled as rationals) or a string.
Scalars are arrays of shape `[]` with a single entry. -/
inductive Value where
  | num (d : Dtype) (shape : List Nat) (data : List Rat)
  | vstr (s : String)
  deriving DecidableEq, Repr

/-- Modelled from the spec: `FeatureType.from_data` of the absent
`robodm/feature.py` (spec §4.1 `from_value`): an array contributes its
dtype and shape, a scalar has shape `()`, a string is `(string, ())`. -/
def FeatureType.fromData : Value → FeatureType
  | .num d sh _ => ⟨d, sh⟩
  | .vstr _ => ⟨.strT, []⟩

/-- The three codec names used by the container
(`rawvideo`, `ffv1`, `libaom-av1`). -/
inductive Codec where
  | rawvideo
  | ffv1
  | libaom_av1
  deriving DecidableEq, Repr

/-- Embeds `Trajectory._get_encoding_of_feature`
(src/robodm/trajectory.py lines 791-812) for a given `FeatureType`
(every call site in the pipeline passes `feature_type`; the
`feature_value` fallback first derives a `FeatureType` via
`FeatureType.from_data` and then runs the same test). -/
def encodingOfFeatureType (lossy : Bool) (ft : FeatureType) : Codec :=
  if 2 ≤ ft.shape.length ∧ 100 ≤ ft.shape.getD 0 0 ∧ 100 ≤ ft.shape.getD 1 0 then
    if lossy then .libaom_av1 else .ffv1
  else .rawvideo

/-! ### Association-list helpers

Python `dict`s with string (or int) keys are embedded as association
lists kept in insertion order; `assocSet` is `d[k] = v` (replace in
place or append), `assocFind` is `d.get(k)`. -/

/-- Lookup in an association list (first match). -/
def assocFind {α β : Type} [DecidableEq α] : List (α × β) → α → Option β
  | [], _ => none
  | (k, v) :: rest, key => if k = key then some v else assocFind rest key

/-- `d[k] = v` on an insertion-ordered association list: replace the
first binding of `k` in place, or append a new binding. -/
def assocSet {α β : Type} [DecidableEq α] : List (α × β) → α → β → List (α × β)
  | [], key, v => [(key, v)]
  | (k, w) :: rest, key, v =>
    if k = key then (key, v) :: rest else (k, w) :: assocSet rest key v

/-- Lookup with a default, `d[k]` where the pipeline guarantees the key
is present (a miss would be a Python `KeyError`). -/
def assocGetD {α β : Type} [DecidableEq α] (l : List (α × β)) (key : α) (dflt : β) : β :=
  (assocFind l key).getD dflt

/-! ### Frames and packets -/

/-- NumPy's `astype(np.uint8)` on a (non-negative, in-range) float:
truncate to an integer and reduce modulo 256.  (For negative or
out-of-range inputs the C cast is unspecified; the pipeline only casts
values produced as `float * 255`.) -/
def npToUint8 (q : Rat) : Nat := q.floor.toNat % 256

/-- A decoded video frame: the pixel format and plane contents that
`av.VideoFrame.from_ndarray` captures.  `gray` carries one byte per
pixel, `rgb24` three.  Pixels are listed row-major as uint8 values. -/
inductive FrameData where
  | gray (shape : List Nat) (pix : List Nat)
  | rgb24 (shape : List Nat) (pix : List Nat)
  deriving DecidableEq, Repr

/-- The body of a muxed packet: an opaque pickled value (`rawvideo`
streams, built via `av.Packet(pickle.dumps(data))`) or an encoded video
frame (ffv1/libaom-av1 streams, modelled losslessly). -/
inductive PacketBody where
  | pickled (v : Value)
  | frame (f : FrameData)
  deriving DecidableEq, Repr

/-- A muxed packet: owning stream index, pts, dts, time base and body.
`none` pts/dts is the Python `None`. -/
structure Packet where
  streamIndex : Nat
  pts : Option Int
  dts : Option Int
  timeBase : Rat
  body : PacketBody
  deriving DecidableEq, Repr

/-- Stream metadata: the two keys the writer sets.  An absent key is
`none` (Python `stream.metadata.get(...) is None`).  `FEATURE_TYPE` is
stored as `str(feature_type)`; the textual form lives in the absent
`robodm/feature.py`, so the round-trip `FeatureType.from_str ∘ str` is
modelled as the identity and the field holds the `FeatureType` itself. -/
structure StreamMeta where
  featureName : Option String
  featureType : Option FeatureType
  deriving DecidableEq, Repr

/-- One container stream. -/
structure VStream where
  encoding : Codec
  width : Option Nat
  height : Option Nat
  meta : StreamMeta
  timeBase : Rat
  deriving DecidableEq, Repr

/-- A matroska container: the ordered stream table (a stream's index is
its position) and the muxed packets in mux order.  `demux` yields the
muxed packets in order; `demux([s])` yields the packets whose stream is
`s` (the trailing flush pseudo-packets PyAV emits have `dts None` and
empty bodies and are not modelled; they are skipped by every loop of
the source). -/
structure Container where
  streams : List VStream
  packets : List Packet
  deriving DecidableEq, Repr

/-- The stream `Trajectory._add_stream_to_container`
(src/robodm/trajectory.py lines 744-770) configures: the given
encoding; for `ffv1` and `libaom-av1` width/height from
`feature_type.shape[1]` / `shape[0]` (a shape of fewer than two
dimensions would raise `IndexError` in Python; modelled with `get?`);
the two metadata keys; time base 1/1000. -/
def mkVStream (featureName : String) (encoding : Codec) (ft : FeatureType) : VStream :=
  { encoding := encoding
    width := if encoding = Codec.ffv1 ∨ encoding = Codec.libaom_av1 then ft.shape.get? 1 else none
    height := if encoding = Codec.ffv1 ∨ encoding = Codec.libaom_av1 then ft.shape.get? 0 else none
    meta := ⟨some featureName, some ft⟩
    timeBase := (1 : Rat) / 1000 }

/-- `container.add_stream(encoding)` plus the body of
`_add_stream_to_container`: append the configured stream and return it
(by its index, the container's previous stream count). -/
def addStreamToContainer (c : Container) (featureName : String) (encoding : Codec)
    (ft : FeatureType) : Container × Nat :=
  ({ c with streams := c.streams ++ [mkVStream featureName encoding ft] }, c.streams.length)

/-- Embeds `Trajectory._create_frame` (lines 772-775): build a video
frame from the array as uint8; for an (H, W, 3) uint8 array
`from_ndarray` infers pixel format rgb24. -/
def createFrame (v : Value) : FrameData :=
  match v with
  | .num _ sh data => .rgb24 sh (data.map npToUint8)
  | .vstr _ => .rgb24 [] []

/-- Embeds `Trajectory._create_frame_depth` (lines 777-789): if the
array dtype is float32, scale by 255 and cast to uint8; if the array is
3-dimensional, keep only the first channel (`image_array[:, :, 0]`);
build a single-channel `gray` frame.  Non-float32 input reaches
`from_ndarray(format="gray")` unscaled (it must already be uint8). -/
def createFrameDepth (v : Value) : FrameData :=
  match v with
  | .num d sh data =>
    let bytes : List Nat :=
      if d = Dtype.float32 then data.map (fun q => npToUint8 (q * 255))
      else data.map npToUint8
    match sh with
    | [h, w, c] => .gray [h, w] ((List.range (h * w)).map (fun i => bytes.getD (i * c) 0))
    | _ => .gray sh bytes
  | .vstr _ => .gray [] []

/-- Embeds `Trajectory._encode_frame` (lines 631-666): for ffv1 /
libaom-av1 streams build a frame (`_create_frame_depth` when the data's
dtype is float32, else `_create_frame`) and submit it to the stream
encoder (modelled as yielding exactly one packet); for any other
encoding build one packet with the pickled value.  The trailing loop
stamps `pts = dts = timestamp` and the stream's time base on every
produced packet. -/
def encodeFrame (s : VStream) (idx : Nat) (v : Value) (ts : Int) : List Packet :=
  match s.encoding with
  | .ffv1 | .libaom_av1 =>
    let ft := FeatureType.fromData v
    let f := if ft.dtype = Dtype.float32 then createFrameDepth v else createFrame v
    [⟨idx, some ts, some ts, s.timeBase, .frame f⟩]
  | .rawvideo => [⟨idx, some ts, some ts, s.timeBase, .pickled v⟩]

/-- `pickle.loads(bytes(packet))` during close-time transcoding: the
model only unpickles genuinely pickled bodies (a frame body there would
make `pickle.loads` raise; unreachable, since at close time every
stream that transcodes was written as `rawvideo`). -/
def unpickle : PacketBody → Value
  | .pickled v => v
  | .frame _ => .num .uint8 [] []

/-! ### The writer state -/

/-- The `Trajectory` writer state: the open container, the
`feature_name_to_stream` map (stream identity modelled by index), the
`feature_name_to_feature_type` map, the closed flag, and the
`lossy_compression` option. -/
structure Traj where
  lossy : Bool
  container : Container
  featureToStream : List (String × Nat)
  featureToType : List (String × FeatureType)
  isClosed : Bool
  deriving DecidableEq, Repr

/-- `Trajectory.__init__` in write mode (lines 91-98): fresh empty
container, empty maps, not closed. -/
def mkTraj (lossy : Bool) : Traj :=
  { lossy := lossy
    container := ⟨[], []⟩
    featureToStream := []
    featureToType := []
    isClosed := false }

/-- Overwrite one stream's metadata in place
(`for key, value in stream.metadata.items(): new.metadata[key] = value`
copies both keys, so the freshly set metadata is replaced wholesale). -/
def setStreamMeta (c : Container) (idx : Nat) (m : StreamMeta) : Container :=
  match c.streams.get? idx with
  | none => c
  | some s => { c with streams := c.streams.set idx { s with meta := m } }

/-- The stream rebuilt for one kept source stream during a remux, given
its `FEATURE_NAME`: encoding is the selector's choice (close-time
transcode) or the source stream's own codec (`_on_new_stream`), the
feature type is looked up in `feature_name_to_feature_type`, and the
source metadata is copied over the fresh stream's metadata. -/
def rebuildOne (lossy : Bool) (ftype : List (String × FeatureType)) (useSel : Bool)
    (s : VStream) : VStream :=
  let name := (s.meta.featureName).getD ""
  let ft := assocGetD ftype name ⟨Dtype.uint8, []⟩
  let enc := if useSel then encodingOfFeatureType lossy ft else s.encoding
  { mkVStream name enc ft with meta := s.meta }

/-- The stream-table rebuild shared by `_on_new_stream` (lines 694-711,
`useSel = false`: keep each stream's codec) and
`_transcode_pickled_images` (lines 555-577, `useSel = true`: re-decide
the codec with `_get_encoding_of_feature`).  Walks the source streams
(`i` is the running `stream.index`, i.e. the position), skips those
without `FEATURE_NAME`, adds a counterpart stream to the new container
via `_add_stream_to_container`, copies the source metadata over it, and
records the old-index → new-index map. -/
def rebuildAux (lossy : Bool) (ftype : List (String × FeatureType)) (useSel : Bool) :
    List VStream → Nat → Container → List (Nat × Nat) → Container × List (Nat × Nat)
  | [], _, acc, remap => (acc, remap)
  | s :: rest, i, acc, remap =>
    match s.meta.featureName with
    | none => rebuildAux lossy ftype useSel rest (i + 1) acc remap
    | some name =>
      let ft := assocGetD ftype name ⟨Dtype.uint8, []⟩
      let enc := if useSel then encodingOfFeatureType lossy ft else s.encoding
      let (acc2, j) := addStreamToContainer acc name enc ft
      let acc3 := setStreamMeta acc2 j s.meta
      rebuildAux lossy ftype useSel rest (i + 1) acc3 (remap ++ [(i, j)])

/-- Rebuild the whole stream table of a trajectory's container into a
fresh container. -/
def rebuildStreams (t : Traj) (useSel : Bool) : Container × List (Nat × Nat) :=
  rebuildAux t.lossy t.featureToType useSel t.container.streams 0 ⟨[], []⟩ []

/-- Verbatim packet remux of `_on_new_stream` (lines 722-734): keep the
packets with non-null pts and dts, rewriting each packet's stream index
through the old-index → new-index map (a packet whose old stream is not
in the map would raise `KeyError` in Python; modelled as dropped,
unreachable because the writer names every stream). -/
def remuxPackets (remap : List (Nat × Nat)) (pkts : List Packet) : List Packet :=
  pkts.filterMap (fun p =>
    if p.pts.isSome ∧ p.dts.isSome then
      match assocFind remap p.streamIndex with
      | some j => some { p with streamIndex := j }
      | none => none
    else none)

/-- Embeds `Trajectory._on_new_stream` (lines 668-742).  First feature:
create the stream in the live container.  Otherwise the flush-and-
rewrite protocol: `close(compact=False)` (flush; no drain packets in
the model), rebuild every kept stream in a fresh container with its own
codec, add the new feature's stream, register the self-map entry for
the new stream's index, remux all valid packets through the index map,
adopt the new container and clear the closed flag. -/
def onNewStream (t : Traj) (feature : String) (encoding : Codec) (ft : FeatureType) : Traj :=
  if (assocFind t.featureToStream feature).isSome then t
  else if t.featureToStream.isEmpty then
    let (c, idx) := addStreamToContainer t.container feature encoding ft
    { t with container := c, featureToStream := assocSet t.featureToStream feature idx }
  else
    let (c1, remap) := rebuildStreams t false
    let (c2, newIdx) := addStreamToContainer c1 feature encoding ft
    let pkts := remuxPackets (remap ++ [(newIdx, newIdx)]) t.container.packets
    { t with
      container := { c2 with packets := pkts }
      featureToStream := assocSet t.featureToStream feature newIdx
      isClosed := false }

/-- Embeds `Trajectory.add` (lines 237-295) with an explicit timestamp
(the `timestamp=None` path reads the millisecond clock; the caller of
the model passes that clock value).  Dict values are excluded by the
`Value` type.  Record the feature's type; if the feature has no stream
yet call `_on_new_stream(feature, "rawvideo", feature_type)`; encode
via `_encode_frame` and mux every produced packet. -/
def Traj.add (t : Traj) (feature : String) (data : Value) (ts : Int) : Traj :=
  let ft := FeatureType.fromData data
  let t1 := { t with featureToType := assocSet t.featureToType feature ft }
  let t2 :=
    if (assocFind t1.featureToStream feature).isSome then t1
    else onNewStream t1 feature Codec.rawvideo ft
  match assocFind t2.featureToStream feature with
  | none => t2
  | some idx =>
    let s := (t2.container.streams.get? idx).getD
      ⟨Codec.rawvideo, none, none, ⟨none, none⟩, (1 : Rat) / 1000⟩
    let pkts := encodeFrame s idx data ts
    { t2 with container := { t2.container with packets := t2.container.packets ++ pkts } }

/-- Embeds `Trajectory.add_by_dict` (lines 297-325): flatten the nested
mapping (the model takes the already-flattened entries, in Python dict
order), resolve the timestamp once, and `add` every leaf with that same
timestamp. -/
def Traj.addByDict (t : Traj) (entries : List (String × Value)) (ts : Int) : Traj :=
  entries.foldl (fun acc kv => acc.add kv.1 kv.2 ts) t

/-- Close-time transcode packet loop (lines 581-604): for each packet
with non-null pts and dts, rewrite its stream through the index map; if
the new stream's codec is ffv1 or libaom-av1 the body is unpickled and
re-encoded through `_encode_frame` at the packet's pts, otherwise the
packet is muxed verbatim. -/
def transcodeStep (c : Container) (remap : List (Nat × Nat)) (p : Packet) : List Packet :=
  if p.pts.isSome ∧ p.dts.isSome then
    match assocFind remap p.streamIndex with
    | some j =>
      let s := (c.streams.get? j).getD
        ⟨Codec.rawvideo, none, none, ⟨none, none⟩, (1 : Rat) / 1000⟩
      if s.encoding = Codec.ffv1 ∨ s.encoding = Codec.libaom_av1 then
        encodeFrame s j (unpickle p.body) (p.pts.getD 0)
      else [{ p with streamIndex := j }]
    | none => []
  else []

/-- The whole transcode demux loop. -/
def transcodePackets (c : Container) (remap : List (Nat × Nat))
    (pkts : List Packet) : List Packet :=
  pkts.flatMap (transcodeStep c remap)

/-- Embeds `Trajectory._transcode_pickled_images` (lines 539-618):
rename aside, rebuild every kept stream with the codec re-decided by
`_get_encoding_of_feature` on the recorded feature type, run the
transcode packet loop, drain the new streams (no drain packets in the
model, hence `endTs` is unused), and adopt the new container. -/
def transcodePickledImages (t : Traj) (_endTs : Int) : Traj :=
  let (c1, remap) := rebuildStreams t true
  let pkts := transcodePackets c1 remap t.container.packets
  { t with container := { c1 with packets := pkts } }

/-- Embeds `Trajectory.close` (lines 124-155): raise
`ValueError("The container file is already closed")` if already closed;
flush every stream at the current timestamp (draining yields no packets
in the model), close the file, transcode when `compact`, and mark the
trajectory closed. -/
def Traj.close (t : Traj) (ts : Int) (compact : Bool) : Except String Traj :=
  if t.isClosed then .error "The container file is already closed"
  else
    let t1 := if compact then transcodePickledImages t ts else t
    .ok { t1 with isClosed := true }

/-! ### Writer traces -/

/-- One public write operation with the millisecond clock value read
during it (`_get_current_timestamp`; `add_by_dict` reads the clock once
for all its leaves). -/
inductive WriteOp where
  | addOne (feature : String) (v : Value)
  | addDict (entries : List (String × Value))

/-- Apply one operation at its clock reading. -/
def applyOp (t : Traj) (op : WriteOp) (ts : Int) : Traj :=
  match op with
  | .addOne f v => t.add f v ts
  | .addDict es => t.addByDict es ts

/-- Run a writer: open in write mode, apply the operations in order. -/
def runWriter (lossy : Bool) (ops : List (WriteOp × Int)) : Traj :=
  ops.foldl (fun t p => applyOp t p.1 p.2) (mkTraj lossy)

/-! ### The reader -/

/-- One preallocated per-feature array of the reader:
`np.empty((length,) + feature_type.shape, dtype=...)` plus the decoded
entries written so far (`d_feature_length` is `entries.length`).  The
array's Python `len()` is `allocLength`; slots past the decoded prefix
hold uninitialized memory. -/
structure DecodedSeries where
  allocLength : Nat
  shape : List Nat
  dtype : Dtype
  entries : List Value
  deriving DecidableEq, Repr

/-- `_get_length_of_stream` (lines 416-424): count the packets of one
stream whose dts is non-null. -/
def getLengthOfStream (c : Container) (i : Nat) : Nat :=
  ((c.packets.filter (fun p => p.streamIndex = i)).filter (fun p => p.dts.isSome)).length

/-- The preallocation loop of `_load_from_container` (lines 447-464):
for each stream with a `FEATURE_NAME`, allocate an array of
`(length,) + feature_type.shape` under that name (a second stream with
the same name would overwrite the dict entry, as in Python). -/
def preallocate (c : Container) (len : Nat) : List (String × DecodedSeries) :=
  c.streams.foldl (fun acc s =>
    match s.meta.featureName with
    | none => acc
    | some name =>
      let ft := (s.meta.featureType).getD ⟨Dtype.uint8, []⟩
      assocSet acc name ⟨len, ft.shape, ft.dtype, []⟩) []

/-- Decoding of one packet body in `_load_from_container`
(lines 479-502), factored out: on a `rawvideo` stream unpickle the
(non-empty) packet body; on a video stream decode the frame, read the
`gray` plane when the feature dtype is float32 (else the rgb24 plane),
and reshape to `feature_type.shape`.  The returned value is what gets
assigned into the preallocated array (uint8 pixel values, cast exactly
into the array's dtype).  `none` marks the combinations the pipeline
never produces (and the skip of empty `rawvideo` packets). -/
def decodePacketValue (encoding : Codec) (ft : FeatureType) (body : PacketBody) : Option Value :=
  match encoding with
  | .rawvideo =>
    match body with
    | .pickled v => some v
    | .frame _ => none
  | _ =>
    match body with
    | .frame (FrameData.gray _ pix) =>
      if ft.dtype = Dtype.float32 then
        some (.num ft.dtype ft.shape (pix.map (fun (n : Nat) => (n : Rat))))
      else none
    | .frame (FrameData.rgb24 _ pix) =>
      if ft.dtype = Dtype.float32 then none
      else some (.num ft.dtype ft.shape (pix.map (fun (n : Nat) => (n : Rat))))
    | .pickled _ => none

/-- Store one decoded value:
`np_cache[name][d_feature_length[name]] = data; d_feature_length[name] += 1`.
Appending past the allocated length would raise `IndexError` in Python
(modelled as a no-op; unreachable while every feature has at most
`length` packets). -/
def npcAppend (npc : List (String × DecodedSeries)) (name : String) (v : Value) :
    List (String × DecodedSeries) :=
  match assocFind npc name with
  | none => npc
  | some ds =>
    if ds.entries.length < ds.allocLength then
      assocSet npc name { ds with entries := ds.entries ++ [v] }
    else npc

/-- Embeds `Trajectory._load_from_container` (lines 398-507): probe the
trajectory length by counting non-null-dts packets **on the first
stream only**, preallocate every named feature's array to that length,
then demux all packets in order and append each decoded value to its
feature's array. -/
def loadFromContainer (c : Container) : List (String × DecodedSeries) :=
  let len := getLengthOfStream c 0
  let init := preallocate c len
  c.packets.foldl (fun npc p =>
    match c.streams.get? p.streamIndex with
    | none => npc
    | some s =>
      match s.meta.featureName with
      | none => npc
      | some name =>
        let ft := (s.meta.featureType).getD ⟨Dtype.uint8, []⟩
        match decodePacketValue s.encoding ft p.body with
        | some v => npcAppend npc name v
        | none => npc) init

/-! ### `load` and the decoded cache -/

/-- The file-system state `Trajectory.load` observes: whether the
container file and the decoded cache file exist, whether the cache is
readable, and the decoded map the cache holds.  Reading the cache back
(`recursively_read_hdf5_group` of the absent `robodm/utils.py`) is
modelled from the spec (§4.7) as returning the stored map. -/
structure LoadEnv where
  containerPresent : Bool
  container : Container
  cachePresent : Bool
  cacheReadable : Bool
  cacheData : List (String × DecodedSeries)
  deriving Repr

/-- The outcome of one `load` call: the returned map (or the error `load`
raises), the updated file-system state, and whether the call opened the
container file (`av.open(self.path, ...)`). -/
structure LoadOutcome where
  result : Except String (List (String × DecodedSeries))
  env : LoadEnv
  openedContainer : Bool
  deriving Repr

/-- Embeds `Trajectory.load` (lines 157-221) for the default call
(`save_to_cache=True`, `return_type="numpy"`): if the cache file does
not exist, decode the container fully and persist the result; then, for
the numpy return type, serve the in-memory result if one was just
computed and non-empty, else read the cache file, falling back to a
full container decode if that read fails. -/
def loadNumpy (e : LoadEnv) : LoadOutcome :=
  if e.cachePresent then
    if e.cacheReadable then ⟨.ok e.cacheData, e, false⟩
    else if e.containerPresent then ⟨.ok (loadFromContainer e.container), e, true⟩
    else ⟨.error "DecodeFailed", e, true⟩
  else if ¬ e.containerPresent then ⟨.error "DecodeFailed", e, true⟩
  else
    let np := loadFromContainer e.container
    let e2 := { e with cachePresent := true, cacheReadable := true, cacheData := np }
    if np.isEmpty then ⟨.ok e2.cacheData, e2, true⟩
    else ⟨.ok np, e2, true⟩

/-! ### Bulk constructor `from_dict_of_lists` -/

/-- What `from_dict_of_lists` leaves on disk: whether the container
file at the target path was created (`av.open(self.path, mode="w")` in
`__init__`, line 95) and whether the writer was closed. -/
structure FSState where
  fileCreated : Bool
  writerClosed : Bool
  deriving DecidableEq, Repr

/-- A successful `from_dict_of_lists`: the final writer state, the
number of steps the loop ran (`range(list_lengths[0])`), and the
file-system state. -/
structure BuildResult where
  traj : Traj
  steps : Nat
  fs : FSState

/-- Embeds `Trajectory.from_dict_of_lists` (lines 351-389) on an
already-flat column map (the `_flatten_dict` call is the identity on a
flat mapping): construct the writer — which creates the container file
on disk — then require all leaf lists to share one length
(`len(set(lengths)) != 1` raises `ValueError`), then add one step per
index with a fresh clock reading and close.  Errors carry the
file-system state at the raise site. -/
def fromDictOfLists (columns : List (String × List Value)) (lossy : Bool) :
    Except (String × FSState) BuildResult :=
  let fs : FSState := ⟨true, false⟩
  let lengths := columns.map (fun kv => kv.2.length)
  if lengths.dedup.length ≠ 1 then
    .error ("All lists must have the same length", fs)
  else
    let L := lengths.headD 0
    let t0 := mkTraj lossy
    let tdone := (List.range L).foldl
      (fun t i =>
        t.addByDict (columns.map (fun kv => (kv.1, kv.2.getD i (Value.num Dtype.uint8 [] []))))
          (i : Int)) t0
    match tdone.close (L : Int) true with
    | .ok t' => .ok ⟨t', L, ⟨true, true⟩⟩
    | .error e => .error (e, fs)

/-! ### Concrete scenarios -/

/-- A scalar float value (shape `()`, dtype float32). -/
def scalarFloat (q : Rat) : Value := Value.num Dtype.float32 [] [q]

/-- A scalar int value (shape `()`, dtype int64). -/
def scalarInt (n : Int) : Value := Value.num Dtype.int64 [] [(n : Rat)]

/-- The column map `{"x": [1,2,3], "y": [4,5]}` of spec scenario 3. -/
def c10Columns : List (String × List Value) :=
  [("x", [scalarInt 1, scalarInt 2, scalarInt 3]), ("y", [scalarInt 4, scalarInt 5])]

/-- The write scenario of claim C1: three steps holding only feature
`a` (a scalar float), then one step that also adds feature `b`, then
`close()`.  Clock readings: 0, 10, 20, 30 ms; close at 40 ms. -/
def c1Trajectory : Except String Traj :=
  (((((mkTraj true).add "a" (scalarFloat 1) 0).add "a" (scalarFloat 2) 10).add "a"
        (scalarFloat 3) 20).addByDict
      [("a", scalarFloat 4), ("b", scalarFloat 5)] 30).close 40 true

/-- The map `load()` builds for the C1 scenario: reopen the written
container and run `_load_from_container`. -/
def c1Load : List (String × DecodedSeries) :=
  match c1Trajectory with
  | .ok t => loadFromContainer t.container
  | .error _ => []

/-- A small written container (one rawvideo stream `x` with one pickled
scalar packet): the concrete trajectory file for the C7 witness. -/
def demoContainer : Container :=
  { streams := [⟨Codec.rawvideo, none, none, ⟨some "x", some ⟨Dtype.float32, []⟩⟩,
      (1 : Rat) / 1000⟩]
    packets := [⟨0, some 0, some 0, (1 : Rat) / 1000, .pickled (scalarFloat 7)⟩] }

/-! ### The writer invariant -/

/-- Invariant maintained by every writer operation, at clock bound `hi`
with `S` the clock readings taken so far: the trajectory is open, every
stream is named, every packet points at an existing stream, the
feature→stream map points at existing streams, every packet carries
`pts = dts = some v` for a clock reading `v ≤ hi`, and within each
stream the muxed pts sequence is non-decreasing. -/
structure WInv (t : Traj) (hi : Int) (S : List Int) : Prop where
  notClosed : t.isClosed = false
  named : ∀ s ∈ t.container.streams, (s.meta.featureName).isSome
  pktIdx : ∀ p ∈ t.container.packets, p.streamIndex < t.container.streams.length
  featIdx : ∀ kv ∈ t.featureToStream, kv.2 < t.container.streams.length
  stamped : ∀ p ∈ t.container.packets, ∃ v, p.pts = some v ∧ p.dts = some v ∧ v ≤ hi ∧ v ∈ S
  sorted : ∀ i, List.Pairwise (· ≤ ·)
    ((t.container.packets.filter (fun p => p.streamIndex = i)).map (fun p => p.pts.getD 0))

end Robodm

namespace Robodm

/-! ## Theorems -/

/-! ### Association-list and list lemmas -/

theorem assocFind_set_self {α β : Type} [DecidableEq α] (l : List (α × β)) (k : α) (v : β) :
    assocFind (assocSet l k v) k = some v := by
  induction l with
  | nil => simp [assocSet, assocFind]
  | cons hd tl ih =>
    obtain ⟨a, b⟩ := hd
    by_cases hak : a = k
    · simp [assocSet, hak, assocFind]
    · simp [assocSet, hak, assocFind, ih]

theorem assocFind_mem {α β : Type} [DecidableEq α] {l : List (α × β)} {k : α} {v : β}
    (h : assocFind l k = some v) : (k, v) ∈ l := by
  induction l with
  | nil => simp [assocFind] at h
  | cons hd tl ih =>
    obtain ⟨a, b⟩ := hd
    by_cases hak : a = k
    · subst hak
      simp [assocFind] at h
      subst h
      exact List.mem_cons_self _ _
    · simp [assocFind, hak] at h
      exact List.mem_cons_of_mem _ (ih h)

theorem assocFind_append_left {α β : Type} [DecidableEq α] {l₁ : List (α × β)} (l₂ : List (α × β))
    {k : α} {v : β} (h : assocFind l₁ k = some v) : assocFind (l₁ ++ l₂) k = some v := by
  induction l₁ with
  | nil => simp [assocFind] at h
  | cons hd tl ih =>
    obtain ⟨a, b⟩ := hd
    by_cases hak : a = k
    · simp [assocFind, hak] at h ⊢
      exact h
    · simp [assocFind, hak] at h ⊢
      exact ih h

theorem set_concat_self {α : Type} (l : List α) (x y : α) :
    (l ++ [x]).set l.length y = l ++ [y] := by
  induction l with
  | nil => rfl
  | cons a t ih => simp [List.set, ih]

theorem two_mem_le_length {α : Type} {l : List α} {x y : α} (hx : x ∈ l) (hy : y ∈ l)
    (hxy : x ≠ y) : 2 ≤ l.length := by
  cases l with
  | nil => cases hx
  | cons a t =>
    cases t with
    | nil =>
      rw [List.mem_singleton] at hx hy
      exact absurd (hx.trans hy.symm) hxy
    | cons b r =>
      simp only [List.length_cons]
      omega

theorem dedup_all_eq {x : Nat} : ∀ {l : List Nat}, l ≠ [] → (∀ y ∈ l, y = x) →
    l.dedup = [x] := by
  intro l
  induction l with
  | nil => intro h; exact absurd rfl h
  | cons a t ih =>
    intro _ hall
    have ha : a = x := hall a (List.mem_cons_self a t)
    subst ha
    by_cases ht : t = []
    · subst ht
      simp [List.dedup]
    · have hdt : t.dedup = [a] := ih ht (fun y hy => hall y (List.mem_cons_of_mem _ hy))
      obtain ⟨z, hz⟩ := List.exists_mem_of_ne_nil t ht
      have hza : z = a := hall z (List.mem_cons_of_mem _ hz)
      rw [List.dedup_cons_of_mem (hza ▸ hz), hdt]

/-! ### Rebuild protocol lemmas -/

/-- Every stream produced by the rebuild walk is either carried over
from the accumulator or is the rebuilt counterpart of a named source
stream. -/
theorem rebuildAux_mem (lossy : Bool) (ftype : List (String × FeatureType)) (useSel : Bool) :
    ∀ (olds : List VStream) (i : Nat) (acc : Container) (remap : List (Nat × Nat)),
    ∀ s' ∈ (rebuildAux lossy ftype useSel olds i acc remap).1.streams,
      s' ∈ acc.streams ∨ ∃ s ∈ olds, ∃ name, s.meta.featureName = some name ∧
        s' = rebuildOne lossy ftype useSel s := by
  intro olds
  induction olds with
  | nil =>
    intro i acc remap s' hs'
    exact Or.inl hs'
  | cons s rest ih =>
    intro i acc remap s' hs'
    rcases hname : s.meta.featureName with - | name
    · rw [rebuildAux, hname] at hs'
      rcases ih (i + 1) acc remap s' hs' with h | ⟨s₀, hs₀, name₀, hn₀, he₀⟩
      · exact Or.inl h
      · exact Or.inr ⟨s₀, List.mem_cons_of_mem _ hs₀, name₀, hn₀, he₀⟩
    · rw [rebuildAux, hname] at hs'
      simp only [addStreamToContainer, setStreamMeta, List.getElem?_concat_length,
        List.get?_eq_getElem?] at hs'
      rw [set_concat_self] at hs'
      rcases ih (i + 1) _ _ s' hs' with h | ⟨s₀, hs₀, name₀, hn₀, he₀⟩
      · rcases List.mem_append.mp h with h | h
        · exact Or.inl h
        · rcases List.mem_singleton.mp h with rfl
          refine Or.inr ⟨s, List.mem_cons_self _ _, name, hname, ?_⟩
          simp [rebuildOne, hname]
      · exact Or.inr ⟨s₀, List.mem_cons_of_mem _ hs₀, name₀, hn₀, he₀⟩

/-- `_on_new_stream` for an unknown feature registers the feature and
appends a stream configured exactly by `_add_stream_to_container` with
the encoding it was passed. -/
theorem onNewStream_spec (t : Traj) (feature : String) (enc : Codec) (ft : FeatureType)
    (h : assocFind t.featureToStream feature = none) :
    ∃ idx, assocFind ((onNewStream t feature enc ft).featureToStream) feature = some idx ∧
      ((onNewStream t feature enc ft).container.streams.get? idx) =
        some (mkVStream feature enc ft) := by
  unfold onNewStream
  rw [h]
  by_cases he : t.featureToStream.isEmpty
  · refine ⟨t.container.streams.length, ?_⟩
    simp [he, addStreamToContainer, assocFind_set_self, List.getElem?_concat_length]
  · rcases hr : rebuildStreams t false with ⟨c1, remap⟩
    refine ⟨c1.streams.length, ?_⟩
    simp [he, hr, addStreamToContainer, assocFind_set_self, List.getElem?_concat_length]

/-- `_on_new_stream` never leaves an open trajectory closed (the remux
branch explicitly clears the closed flag after its internal
`close(compact=False)`). -/
theorem onNewStream_isClosed (t : Traj) (f : String) (e : Codec) (ft : FeatureType)
    (h : t.isClosed = false) : (onNewStream t f e ft).isClosed = false := by
  unfold onNewStream
  split
  · exact h
  · split
    · exact h
    · rcases h1 : rebuildStreams t false with ⟨c1, remap⟩
      rfl

/-- `add` never leaves an open trajectory closed. -/
theorem add_isClosed (t : Traj) (f : String) (v : Value) (ts : Int)
    (h : t.isClosed = false) : (t.add f v ts).isClosed = false := by
  unfold Traj.add
  dsimp only
  split <;> split <;>
    first
      | exact h
      | exact onNewStream_isClosed _ _ _ _ h

/-- `add_by_dict` never leaves an open trajectory closed. -/
theorem addByDict_isClosed (es : List (String × Value)) (ts : Int) :
    ∀ t : Traj, t.isClosed = false → (t.addByDict es ts).isClosed = false := by
  induction es with
  | nil => intro t h; exact h
  | cons kv rest ih =>
    intro t h
    exact ih _ (add_isClosed t kv.1 kv.2 ts h)

/-- Folding operations that keep a trajectory open keeps it open. -/
theorem foldl_isClosed {α : Type} (f : Traj → α → Traj)
    (hf : ∀ (t : Traj) (a : α), t.isClosed = false → (f t a).isClosed = false) :
    ∀ (l : List α) (t : Traj), t.isClosed = false → (l.foldl f t).isClosed = false := by
  intro l
  induction l with
  | nil => intro t h; exact h
  | cons i rest ih =>
    intro t h
    exact ih _ (hf t i h)

/-- Closing an open trajectory with `compact=True` succeeds and yields
the transcoded, sealed trajectory. -/
theorem close_ok_of_open (t : Traj) (ts : Int) (h : t.isClosed = false) :
    t.close ts true = Except.ok { transcodePickledImages t ts with isClosed := true } := by
  unfold Traj.close
  rw [h]
  simp

/-! ### Writer-invariant lemmas for the timestamp theorem -/

theorem rebuildOne_of_named (lossy : Bool) (ftype : List (String × FeatureType)) (useSel : Bool)
    (s : VStream) (name : String) (hname : s.meta.featureName = some name) :
    rebuildOne lossy ftype useSel s =
      { mkVStream name
          (if useSel then encodingOfFeatureType lossy (assocGetD ftype name ⟨Dtype.uint8, []⟩)
           else s.encoding)
          (assocGetD ftype name ⟨Dtype.uint8, []⟩) with meta := s.meta } := by
  simp [rebuildOne, hname]

theorem rebuildAux_eq (lossy : Bool) (ftype : List (String × FeatureType)) (useSel : Bool) :
    ∀ (olds : List VStream) (acc : Container) (remap : List (Nat × Nat)),
    (∀ s ∈ olds, (s.meta.featureName).isSome) →
    rebuildAux lossy ftype useSel olds acc.streams.length acc remap =
      (⟨acc.streams ++ olds.map (rebuildOne lossy ftype useSel), acc.packets⟩,
       remap ++ (List.range' acc.streams.length olds.length).map (fun k => (k, k))) := by
  intro olds
  induction olds with
  | nil =>
    intro acc remap hnamed
    simp [rebuildAux]
  | cons s rest ih =>
    intro acc remap hnamed
    obtain ⟨name, hname⟩ := Option.isSome_iff_exists.mp (hnamed s (List.mem_cons_self s rest))
    rw [rebuildAux, hname]
    have hacc3 : setStreamMeta
        ({ acc with streams := acc.streams ++ [mkVStream name
            (if useSel then encodingOfFeatureType lossy (assocGetD ftype name ⟨Dtype.uint8, []⟩)
             else s.encoding) (assocGetD ftype name ⟨Dtype.uint8, []⟩)] })
        acc.streams.length s.meta =
        ⟨acc.streams ++ [rebuildOne lossy ftype useSel s], acc.packets⟩ := by
      unfold setStreamMeta
      simp only [List.get?_eq_getElem?, List.getElem?_concat_length]
      rw [set_concat_self]
      rw [rebuildOne_of_named lossy ftype useSel s name hname]
    dsimp only [addStreamToContainer]
    rw [hacc3]
    have hlen : (acc.streams ++ [rebuildOne lossy ftype useSel s]).length =
        acc.streams.length + 1 := by simp
    have ihs := ih ⟨acc.streams ++ [rebuildOne lossy ftype useSel s], acc.packets⟩
      (remap ++ [(acc.streams.length, acc.streams.length)])
      (fun x hx => hnamed x (List.mem_cons_of_mem _ hx))
    rw [show (⟨acc.streams ++ [rebuildOne lossy ftype useSel s], acc.packets⟩ :
        Container).streams.length = acc.streams.length + 1 by simp] at ihs
    rw [ihs]
    simp [List.range'_succ]

theorem rebuildStreams_eq (t : Traj) (useSel : Bool)
    (hnamed : ∀ s ∈ t.container.streams, (s.meta.featureName).isSome) :
    rebuildStreams t useSel =
      (⟨t.container.streams.map (rebuildOne t.lossy t.featureToType useSel), []⟩,
       (List.range' 0 t.container.streams.length).map (fun k => (k, k))) := by
  unfold rebuildStreams
  have h := rebuildAux_eq t.lossy t.featureToType useSel t.container.streams ⟨[], []⟩ [] hnamed
  simpa using h

theorem assocFind_idPairs : ∀ (n s i : Nat), s ≤ i → i < s + n →
    assocFind ((List.range' s n).map (fun k => (k, k))) i = some i := by
  intro n
  induction n with
  | zero =>
    intro s i h1 h2
    omega
  | succ m ih =>
    intro s i h1 h2
    rw [List.range'_succ]
    by_cases hsi : s = i
    · subst hsi
      simp [assocFind]
    · simp only [List.map_cons, assocFind, if_neg hsi]
      exact ih (s + 1) i (by omega) (by omega)

theorem assocSet_mem {α β : Type} [DecidableEq α] {l : List (α × β)} {k : α} {v : β} :
    ∀ kv ∈ assocSet l k v, kv = (k, v) ∨ kv ∈ l := by
  induction l with
  | nil =>
    intro kv hkv
    simp [assocSet] at hkv
    exact Or.inl hkv
  | cons hd tl ih =>
    intro kv hkv
    obtain ⟨a, b⟩ := hd
    by_cases hak : a = k
    · rw [assocSet, if_pos hak] at hkv
      rcases List.mem_cons.mp hkv with h | h
      · exact Or.inl h
      · exact Or.inr (List.mem_cons_of_mem _ h)
    · rw [assocSet, if_neg hak] at hkv
      rcases List.mem_cons.mp hkv with h | h
      · exact Or.inr (h ▸ List.mem_cons_self _ _)
      · rcases ih kv h with h2 | h2
        · exact Or.inl h2
        · exact Or.inr (List.mem_cons_of_mem _ h2)

theorem encodeFrame_shape (s : VStream) (idx : Nat) (v : Value) (ts : Int) :
    ∃ b, encodeFrame s idx v ts = [⟨idx, some ts, some ts, s.timeBase, b⟩] := by
  cases h : s.encoding with
  | rawvideo => exact ⟨.pickled v, by simp [encodeFrame, h]⟩
  | ffv1 =>
    exact ⟨.frame (if (FeatureType.fromData v).dtype = Dtype.float32 then createFrameDepth v
      else createFrame v), by simp [encodeFrame, h]⟩
  | libaom_av1 =>
    exact ⟨.frame (if (FeatureType.fromData v).dtype = Dtype.float32 then createFrameDepth v
      else createFrame v), by simp [encodeFrame, h]⟩

theorem remuxPackets_keep (n : Nat) (extra : List (Nat × Nat)) :
    ∀ (pkts : List Packet),
    (∀ p ∈ pkts, p.streamIndex < n ∧ p.pts.isSome ∧ p.dts.isSome) →
    remuxPackets ((List.range' 0 n).map (fun k => (k, k)) ++ extra) pkts = pkts := by
  intro pkts
  induction pkts with
  | nil => intro h; rfl
  | cons p rest ih =>
    intro h
    obtain ⟨hidx, hpts, hdts⟩ := h p (List.mem_cons_self p rest)
    have hfind : assocFind ((List.range' 0 n).map (fun k => (k, k)) ++ extra) p.streamIndex =
        some p.streamIndex :=
      assocFind_append_left _ (assocFind_idPairs n 0 p.streamIndex (Nat.zero_le _) (by omega))
    unfold remuxPackets at ih ⊢
    simp only [List.filterMap_cons]
    rw [if_pos ⟨hpts, hdts⟩, hfind]
    dsimp only
    rw [ih (fun q hq => h q (List.mem_cons_of_mem _ hq))]

theorem WInv.mono {t : Traj} {hi : Int} {S : List Int} {hi' : Int} {S' : List Int}
    (h : WInv t hi S) (hh : hi ≤ hi') (hs : S ⊆ S') : WInv t hi' S' :=
  { notClosed := h.notClosed
    named := h.named
    pktIdx := h.pktIdx
    featIdx := h.featIdx
    stamped := fun p hp => by
      obtain ⟨v, h1, h2, h3, h4⟩ := h.stamped p hp
      exact ⟨v, h1, h2, le_trans h3 hh, hs h4⟩
    sorted := h.sorted }

theorem transcodeStep_eq (c : Container) (n : Nat) (p : Packet) (v : Int)
    (hidx : p.streamIndex < n) (hpts : p.pts = some v) (hdts : p.dts = some v) :
    ∃ p' : Packet, transcodeStep c ((List.range' 0 n).map (fun k => (k, k))) p = [p'] ∧
      p'.streamIndex = p.streamIndex ∧ p'.pts = some v ∧ p'.dts = some v := by
  unfold transcodeStep
  rw [if_pos ⟨by rw [hpts]; rfl, by rw [hdts]; rfl⟩]
  rw [assocFind_idPairs n 0 p.streamIndex (Nat.zero_le _) (by omega)]
  dsimp only
  set s := (c.streams.get? p.streamIndex).getD
    ⟨Codec.rawvideo, none, none, ⟨none, none⟩, (1 : Rat) / 1000⟩ with hs
  by_cases hv : s.encoding = Codec.ffv1 ∨ s.encoding = Codec.libaom_av1
  · rw [if_pos hv]
    obtain ⟨b, hb⟩ := encodeFrame_shape s p.streamIndex (unpickle p.body) (p.pts.getD 0)
    rw [hb]
    refine ⟨_, rfl, rfl, ?_, ?_⟩
    · rw [hpts]; rfl
    · rw [hpts]; rfl
  · rw [if_neg hv]
    exact ⟨{ p with streamIndex := p.streamIndex }, rfl, rfl, hpts, hdts⟩

theorem transcodePackets_mem (c : Container) (n : Nat) :
    ∀ (pkts : List Packet),
    (∀ p ∈ pkts, p.streamIndex < n ∧ ∃ v, p.pts = some v ∧ p.dts = some v) →
    ∀ p' ∈ transcodePackets c ((List.range' 0 n).map (fun k => (k, k))) pkts,
      ∃ p ∈ pkts, p'.streamIndex = p.streamIndex ∧ p'.pts = p.pts ∧ p'.dts = p.dts := by
  intro pkts
  induction pkts with
  | nil =>
    intro hh p' hp'
    cases hp'
  | cons p rest ih =>
    intro hh p' hp'
    obtain ⟨hidx, v, hpts, hdts⟩ := hh p (List.mem_cons_self p rest)
    obtain ⟨q, hstep, hqidx, hqpts, hqdts⟩ := transcodeStep_eq c n p v hidx hpts hdts
    unfold transcodePackets at hp'
    rw [List.flatMap_cons, hstep] at hp'
    rcases List.mem_append.mp hp' with h1 | h1
    · rcases List.mem_singleton.mp h1 with rfl
      exact ⟨p, List.mem_cons_self p rest, hqidx, by rw [hqpts, hpts], by rw [hqdts, hdts]⟩
    · obtain ⟨p₀, hp₀, h⟩ := ih (fun q hq => hh q (List.mem_cons_of_mem _ hq)) p' h1
      exact ⟨p₀, List.mem_cons_of_mem _ hp₀, h⟩

theorem transcodePackets_filter_map (c : Container) (n : Nat) (i : Nat) :
    ∀ (pkts : List Packet),
    (∀ p ∈ pkts, p.streamIndex < n ∧ ∃ v, p.pts = some v ∧ p.dts = some v) →
    ((transcodePackets c ((List.range' 0 n).map (fun k => (k, k))) pkts).filter
        (fun p => p.streamIndex = i)).map (fun p => p.pts.getD 0) =
      ((pkts.filter (fun p => p.streamIndex = i)).map (fun p => p.pts.getD 0)) := by
  intro pkts
  induction pkts with
  | nil => intro hh; rfl
  | cons p rest ih =>
    intro hh
    obtain ⟨hidx, v, hpts, hdts⟩ := hh p (List.mem_cons_self p rest)
    obtain ⟨q, hstep, hqidx, hqpts, hqdts⟩ := transcodeStep_eq c n p v hidx hpts hdts
    unfold transcodePackets at ih ⊢
    rw [List.flatMap_cons, hstep]
    rw [List.filter_append, List.map_append]
    rw [ih (fun r hr => hh r (List.mem_cons_of_mem _ hr))]
    by_cases hqi : p.streamIndex = i
    · have hqi' : q.streamIndex = i := by rw [hqidx]; exact hqi
      simp only [List.filter_cons, List.filter_nil, hqi, hqi', decide_True, if_pos,
        List.map_cons, List.map_nil]
      rw [hqpts, hpts]
      rfl
    · have hqi' : ¬ q.streamIndex = i := by rw [hqidx]; exact hqi
      simp only [List.filter_cons, List.filter_nil, hqi, hqi', decide_False,
        List.map_cons, List.map_nil]
      rfl

theorem onNewStream_inv (t : Traj) (f : String) (e : Codec) (ft : FeatureType) (hi : Int)
    (S : List Int) (h : WInv t hi S) : WInv (onNewStream t f e ft) hi S := by
  unfold onNewStream
  split
  · exact h
  split
  · -- first-ever stream: create it in the live container
    dsimp only [addStreamToContainer]
    refine ⟨h.notClosed, ?_, ?_, ?_, h.stamped, h.sorted⟩
    · intro s hs
      rcases List.mem_append.mp hs with hs | hs
      · exact h.named s hs
      · rcases List.mem_singleton.mp hs with rfl
        rfl
    · intro p hp
      have := h.pktIdx p hp
      simp only [List.length_append, List.length_cons, List.length_nil]
      omega
    · intro kv hkv
      simp only [List.length_append, List.length_cons, List.length_nil]
      rcases assocSet_mem kv hkv with rfl | hmem
      · omega
      · have := h.featIdx kv hmem
        omega
  · -- flush-and-rewrite protocol
    rcases hrb : rebuildStreams t false with ⟨c1, remap⟩
    have heq := (rebuildStreams_eq t false h.named).symm.trans hrb
    obtain ⟨hc1, hremap⟩ := Prod.mk.injEq .. |>.mp heq
    subst hc1
    subst hremap
    dsimp only [addStreamToContainer]
    have hn : (List.map (rebuildOne t.lossy t.featureToType false) t.container.streams).length =
        t.container.streams.length := List.length_map _ _
    have hkeep : remuxPackets
        ((List.range' 0 t.container.streams.length).map (fun k => (k, k)) ++
          [((List.map (rebuildOne t.lossy t.featureToType false) t.container.streams).length,
            (List.map (rebuildOne t.lossy t.featureToType false) t.container.streams).length)])
        t.container.packets = t.container.packets := by
      refine remuxPackets_keep _ _ _ (fun p hp => ?_)
      obtain ⟨v, h1, h2, -, -⟩ := h.stamped p hp
      exact ⟨h.pktIdx p hp, by rw [h1]; rfl, by rw [h2]; rfl⟩
    refine ⟨rfl, ?_, ?_, ?_, ?_, ?_⟩
    · intro s hs
      dsimp only at hs
      rcases List.mem_append.mp hs with hs | hs
      · obtain ⟨s₀, hs₀, rfl⟩ := List.mem_map.mp hs
        exact h.named s₀ hs₀
      · rcases List.mem_singleton.mp hs with rfl
        rfl
    · intro p hp
      dsimp only at hp ⊢
      rw [hkeep] at hp
      have := h.pktIdx p hp
      simp only [List.length_append, List.length_map, List.length_cons, List.length_nil]
      omega
    · intro kv hkv
      dsimp only at hkv ⊢
      simp only [List.length_append, List.length_map, List.length_cons, List.length_nil]
      rcases assocSet_mem kv hkv with rfl | hmem
      · simp only [List.length_map]
        omega
      · have := h.featIdx kv hmem
        omega
    · intro p hp
      dsimp only at hp
      rw [hkeep] at hp
      exact h.stamped p hp
    · intro i
      dsimp only
      rw [hkeep]
      exact h.sorted i

theorem append_packet_inv (t2 : Traj) (idx : Nat) (v : Value) (ts : Int) (hi : Int)
    (S : List Int) (h2 : WInv t2 hi S) (hts : hi ≤ ts)
    (hidx : idx < t2.container.streams.length) :
    WInv { t2 with container := { t2.container with
        packets := t2.container.packets ++ encodeFrame
          ((t2.container.streams.get? idx).getD
            ⟨Codec.rawvideo, none, none, ⟨none, none⟩, (1 : Rat) / 1000⟩) idx v ts } }
      ts (ts :: S) := by
  obtain ⟨b, hb⟩ := encodeFrame_shape
    ((t2.container.streams.get? idx).getD
      ⟨Codec.rawvideo, none, none, ⟨none, none⟩, (1 : Rat) / 1000⟩) idx v ts
  refine ⟨h2.notClosed, h2.named, ?_, h2.featIdx, ?_, ?_⟩
  · intro p hp
    dsimp only at hp ⊢
    rcases List.mem_append.mp hp with hp | hp
    · exact h2.pktIdx p hp
    · rw [hb] at hp
      rcases List.mem_singleton.mp hp with rfl
      exact hidx
  · intro p hp
    dsimp only at hp
    rcases List.mem_append.mp hp with hp | hp
    · obtain ⟨w, hw1, hw2, hw3, hw4⟩ := h2.stamped p hp
      exact ⟨w, hw1, hw2, le_trans hw3 hts, List.mem_cons_of_mem _ hw4⟩
    · rw [hb] at hp
      rcases List.mem_singleton.mp hp with rfl
      exact ⟨ts, rfl, rfl, le_refl ts, List.mem_cons_self _ _⟩
  · intro i
    dsimp only
    rw [hb, List.filter_append, List.map_append]
    rw [List.pairwise_append]
    refine ⟨h2.sorted i, ?_, ?_⟩
    · by_cases hpi : idx = i
      · simp [List.filter_cons, hpi]
      · simp [List.filter_cons, hpi]
    · intro a ha b' hb'
      obtain ⟨p, hpmem, rfl⟩ := List.mem_map.mp ha
      obtain ⟨w, hw1, -, hw3, -⟩ := h2.stamped p (List.mem_filter.mp hpmem).1
      by_cases hpi : idx = i
      · simp only [List.filter_cons, List.filter_nil, hpi, decide_True, if_pos,
          List.map_cons, List.map_nil, List.mem_singleton] at hb'
        subst hb'
        rw [hw1]
        exact le_trans hw3 hts
      · simp [List.filter_cons, hpi] at hb'

theorem add_inv (t : Traj) (f : String) (v : Value) (ts : Int) (hi : Int) (S : List Int)
    (h : WInv t hi S) (hts : hi ≤ ts) : WInv (t.add f v ts) ts (ts :: S) := by
  have h1 : WInv { t with
      featureToType := assocSet t.featureToType f (FeatureType.fromData v) } hi S :=
    ⟨h.notClosed, h.named, h.pktIdx, h.featIdx, h.stamped, h.sorted⟩
  unfold Traj.add
  dsimp only
  by_cases hsome : (assocFind t.featureToStream f).isSome = true
  · rw [if_pos hsome]
    obtain ⟨idx, hidx⟩ := Option.isSome_iff_exists.mp hsome
    rw [hidx]
    exact append_packet_inv _ idx v ts hi S h1 hts (h1.featIdx _ (assocFind_mem hidx))
  · rw [if_neg hsome]
    have h2 : WInv (onNewStream { t with
        featureToType := assocSet t.featureToType f (FeatureType.fromData v) } f
        Codec.rawvideo (FeatureType.fromData v)) hi S :=
      onNewStream_inv _ _ _ _ hi S h1
    cases hfind : assocFind (onNewStream { t with
        featureToType := assocSet t.featureToType f (FeatureType.fromData v) } f
        Codec.rawvideo (FeatureType.fromData v)).featureToStream f with
    | none => exact WInv.mono h2 hts (List.subset_cons_self _ _)
    | some idx =>
      exact append_packet_inv _ idx v ts hi S h2 hts (h2.featIdx _ (assocFind_mem hfind))

theorem mkTraj_inv (lossy : Bool) (hi : Int) (S : List Int) : WInv (mkTraj lossy) hi S :=
  ⟨rfl, fun s hs => absurd hs (List.not_mem_nil s), fun p hp => absurd hp (List.not_mem_nil p),
   fun kv hkv => absurd hkv (List.not_mem_nil kv), fun p hp => absurd hp (List.not_mem_nil p),
   fun _ => List.Pairwise.nil⟩

theorem addByDict_fold_inv (ts : Int) (S : List Int) :
    ∀ (es : List (String × Value)) (t : Traj), WInv t ts (ts :: S) →
      WInv (t.addByDict es ts) ts (ts :: S) := by
  intro es
  induction es with
  | nil => intro t h; exact h
  | cons kv rest ih =>
    intro t h
    unfold Traj.addByDict at ih ⊢
    rw [List.foldl_cons]
    have hstep := add_inv t kv.1 kv.2 ts ts (ts :: S) h le_rfl
    refine ih _ (WInv.mono hstep le_rfl ?_)
    intro x hx
    rcases List.mem_cons.mp hx with rfl | hx
    · exact List.mem_cons_self _ _
    · exact hx

theorem addByDict_inv (es : List (String × Value)) (t : Traj) (ts hi : Int) (S : List Int)
    (h : WInv t hi S) (hts : hi ≤ ts) : WInv (t.addByDict es ts) ts (ts :: S) :=
  addByDict_fold_inv ts S es t
    (WInv.mono h hts (List.subset_cons_self _ _))

theorem applyOp_inv (t : Traj) (op : WriteOp) (ts hi : Int) (S : List Int)
    (h : WInv t hi S) (hts : hi ≤ ts) : WInv (applyOp t op ts) ts (ts :: S) := by
  cases op with
  | addOne f v => exact add_inv t f v ts hi S h hts
  | addDict es => exact addByDict_inv es t ts hi S h hts

theorem runFold_inv (closeTs : Int) :
    ∀ (ops : List (WriteOp × Int)) (t : Traj) (hi : Int) (S : List Int),
      WInv t hi S → List.Chain (· ≤ ·) hi (ops.map Prod.snd ++ [closeTs]) →
      WInv (ops.foldl (fun a p => applyOp a p.1 p.2) t) closeTs (ops.map Prod.snd ++ S) := by
  intro ops
  induction ops with
  | nil =>
    intro t hi S h hchain
    rw [List.map_nil, List.nil_append] at hchain ⊢
    obtain ⟨hle, -⟩ := List.chain_cons.mp hchain
    exact WInv.mono h hle (fun x hx => hx)
  | cons p rest ih =>
    intro t hi S h hchain
    rw [List.map_cons, List.cons_append] at hchain
    obtain ⟨hle, hchain2⟩ := List.chain_cons.mp hchain
    rw [List.foldl_cons]
    have hstep := applyOp_inv t p.1 p.2 hi S h hle
    have hrec := ih (applyOp t p.1 p.2) p.2 (p.2 :: S) hstep hchain2
    rw [List.map_cons, List.cons_append]
    refine WInv.mono hrec le_rfl ?_
    intro x hx
    rcases List.mem_append.mp hx with hx | hx
    · exact List.mem_cons_of_mem _ (List.mem_append_left _ hx)
    · rcases List.mem_cons.mp hx with rfl | hx
      · exact List.mem_cons_self _ _
      · exact List.mem_cons_of_mem _ (List.mem_append_right _ hx)

theorem transcode_inv (t : Traj) (endTs : Int) (hi : Int) (S : List Int) (h : WInv t hi S) :
    (∀ p ∈ (transcodePickledImages t endTs).container.packets,
      ∃ v, p.pts = some v ∧ p.dts = some v ∧ v ∈ S) ∧
    (∀ i, List.Pairwise (· ≤ ·)
      (((transcodePickledImages t endTs).container.packets.filter
        (fun p => p.streamIndex = i)).map (fun p => p.pts.getD 0))) := by
  unfold transcodePickledImages
  rcases hrb : rebuildStreams t true with ⟨c1, remap⟩
  have heq := (rebuildStreams_eq t true h.named).symm.trans hrb
  obtain ⟨hc1, hremap⟩ := Prod.mk.injEq .. |>.mp heq
  subst hc1
  subst hremap
  dsimp only
  have hcond : ∀ p ∈ t.container.packets, p.streamIndex < t.container.streams.length ∧
      ∃ v, p.pts = some v ∧ p.dts = some v := by
    intro p hp
    obtain ⟨v, h1, h2, -, -⟩ := h.stamped p hp
    exact ⟨h.pktIdx p hp, v, h1, h2⟩
  constructor
  · intro p hp
    obtain ⟨q, hq, hqidx, hqpts, hqdts⟩ :=
      transcodePackets_mem _ t.container.streams.length t.container.packets hcond p hp
    obtain ⟨v, h1, h2, -, h4⟩ := h.stamped q hq
    exact ⟨v, by rw [hqpts, h1], by rw [hqdts, h2], h4⟩
  · intro i
    rw [transcodePackets_filter_map _ t.container.streams.length i t.container.packets hcond]
    exact h.sorted i

/-! ### Claim theorems -/

/-- Claim C2: for every FeatureType and lossy flag the codec selector
returns a video codec (`libaom-av1` when lossy, `ffv1` when not) iff the
shape has at least 2 dimensions and both of the first two dimensions are
at least 100, and returns `rawvideo` otherwise; in particular
(99,100,3) maps to `rawvideo` and (100,100,3) maps to `ffv1` (lossy off)
or `libaom-av1` (lossy on), for every dtype. -/
theorem codec_selector_boundary (lossy : Bool) (ft : FeatureType) :
    (encodingOfFeatureType lossy ft = (if lossy then Codec.libaom_av1 else Codec.ffv1) ↔
      2 ≤ ft.shape.length ∧ 100 ≤ ft.shape.getD 0 0 ∧ 100 ≤ ft.shape.getD 1 0) ∧
    (¬ (2 ≤ ft.shape.length ∧ 100 ≤ ft.shape.getD 0 0 ∧ 100 ≤ ft.shape.getD 1 0) →
      encodingOfFeatureType lossy ft = Codec.rawvideo) ∧
    (∀ d : Dtype, encodingOfFeatureType lossy ⟨d, [99, 100, 3]⟩ = Codec.rawvideo) ∧
    (∀ d : Dtype, encodingOfFeatureType false ⟨d, [100, 100, 3]⟩ = Codec.ffv1) ∧
    (∀ d : Dtype, encodingOfFeatureType true ⟨d, [100, 100, 3]⟩ = Codec.libaom_av1) := by
  unfold encodingOfFeatureType
  refine ⟨?_, ?_, ?_, ?_, ?_⟩
  · constructor
    · intro h
      by_contra hc
      rw [if_neg hc] at h
      cases lossy <;> simp_all
    · intro h
      rw [if_pos h]
  · intro h
    rw [if_neg h]
  · intro d; simp
  · intro d; simp
  · intro d; simp

/-- Counterexample to claim C1: in the 3-steps-of-`a` then one-step-of-
`a`-and-`b` scenario, the array `load()` returns for `b` has length 4,
not 1 — the reader preallocates every feature's array to the length
probed on the first stream. -/
theorem c1_b_length_counterexample :
    (assocFind c1Load "b").map DecodedSeries.allocLength = some 4 ∧
    (assocFind c1Load "b").map DecodedSeries.allocLength ≠ some 1 := by
  constructor
  · decide
  · decide

/-- Claim C1 as amended: after writing 3 steps with only feature `a`
and one step that also adds `b`, then closing and loading, the file
holds two streams `a` and `b`; the array for `a` has length 4 holding
the 4 decoded values, and the array for `b` is preallocated to length 4
as well (the probed length of the first stream), with only its first
slot holding a decoded value — `b` has exactly 1 decoded entry. -/
theorem c1_lengths_amended :
    (match c1Trajectory with
      | .ok t => t.container.streams.map (fun s => s.meta.featureName)
      | .error _ => []) = [some "a", some "b"] ∧
    (assocFind c1Load "a").map DecodedSeries.allocLength = some 4 ∧
    (assocFind c1Load "a").map (fun ds => ds.entries) =
      some [scalarFloat 1, scalarFloat 2, scalarFloat 3, scalarFloat 4] ∧
    (assocFind c1Load "b").map DecodedSeries.allocLength = some 4 ∧
    (assocFind c1Load "b").map (fun ds => ds.entries) = some [scalarFloat 5] := by
  refine ⟨?_, ?_, ?_, ?_, ?_⟩ <;> decide

/-- Witness for C2: the codec selector evaluated at the concrete
boundary shapes named by the claim. -/
theorem codec_selector_boundary_witness :
    encodingOfFeatureType true ⟨Dtype.uint8, [99, 100, 3]⟩ = Codec.rawvideo ∧
    encodingOfFeatureType false ⟨Dtype.uint8, [100, 100, 3]⟩ = Codec.ffv1 ∧
    encodingOfFeatureType true ⟨Dtype.uint8, [100, 100, 3]⟩ = Codec.libaom_av1 ∧
    (encodingOfFeatureType true ⟨Dtype.uint8, [100, 100, 3]⟩ =
        (if true then Codec.libaom_av1 else Codec.ffv1) ↔
      2 ≤ ([100, 100, 3] : List Nat).length ∧ 100 ≤ ([100, 100, 3] : List Nat).getD 0 0 ∧
        100 ≤ ([100, 100, 3] : List Nat).getD 1 0) :=
  ⟨(codec_selector_boundary true ⟨Dtype.uint8, [99, 100, 3]⟩).2.2.1 Dtype.uint8,
   (codec_selector_boundary false ⟨Dtype.uint8, [100, 100, 3]⟩).2.2.2.1 Dtype.uint8,
   (codec_selector_boundary true ⟨Dtype.uint8, [100, 100, 3]⟩).2.2.2.2 Dtype.uint8,
   (codec_selector_boundary true ⟨Dtype.uint8, [100, 100, 3]⟩).1⟩

/-- Claim C3: whenever `add` meets a new feature it creates the stream
with encoding `rawvideo` — the stream is configured exactly as
`_add_stream_to_container(container, feature, "rawvideo", ft)` builds
it, for every value (hence every FeatureType) and independently of the
lossy flag (which `add` never consults); the codec selector's
video-vs-raw decision is applied during close-time transcoding, where
every rebuilt stream's encoding is `_get_encoding_of_feature` of its
feature's recorded type. -/
theorem add_defers_codec_selection :
    (∀ (t : Traj) (feature : String) (v : Value) (ts : Int),
      assocFind t.featureToStream feature = none →
      ∃ idx, assocFind ((t.add feature v ts).featureToStream) feature = some idx ∧
        (t.add feature v ts).container.streams.get? idx =
          some (mkVStream feature Codec.rawvideo (FeatureType.fromData v))) ∧
    (∀ (t : Traj) (endTs : Int), ∀ s' ∈ (transcodePickledImages t endTs).container.streams,
      ∃ name, s'.meta.featureName = some name ∧
        s'.encoding =
          encodingOfFeatureType t.lossy (assocGetD t.featureToType name ⟨Dtype.uint8, []⟩)) := by
  constructor
  · intro t feature v ts h
    obtain ⟨idx, hfind, hget⟩ := onNewStream_spec
      { t with featureToType := assocSet t.featureToType feature (FeatureType.fromData v) }
      feature Codec.rawvideo (FeatureType.fromData v) h
    refine ⟨idx, ?_⟩
    unfold Traj.add
    dsimp only
    rw [h]
    simp only [Option.isSome_none, Bool.false_eq_true, if_false]
    rw [hfind]
    exact ⟨hfind, hget⟩
  · intro t endTs s' hs'
    unfold transcodePickledImages at hs'
    rcases hrb : rebuildStreams t true with ⟨c1, remap⟩
    rw [hrb] at hs'
    dsimp only at hs'
    have hc1 : c1.streams = (rebuildAux t.lossy t.featureToType true t.container.streams 0
        ⟨[], []⟩ []).1.streams := by
      rw [show rebuildAux t.lossy t.featureToType true t.container.streams 0 ⟨[], []⟩ [] =
        (c1, remap) from hrb]
    rw [hc1] at hs'
    rcases rebuildAux_mem t.lossy t.featureToType true t.container.streams 0 ⟨[], []⟩ [] s' hs'
      with hacc | ⟨s, -, name, hn, rfl⟩
    · simp at hacc
    · exact ⟨name, by simp [rebuildOne, hn], by simp [rebuildOne, hn, mkVStream]⟩

/-- Witness for C3: adding a large lossy-eligible uint8 image feature
to a fresh writer still creates a `rawvideo` stream, and the transcoded
container of a one-feature trajectory carries the selector's codec. -/
theorem add_defers_codec_selection_witness :
    (∃ idx, assocFind (((mkTraj true).add "img"
        (Value.num Dtype.uint8 [100, 100, 3] []) 0).featureToStream) "img" = some idx ∧
      ((mkTraj true).add "img" (Value.num Dtype.uint8 [100, 100, 3] []) 0).container.streams.get?
          idx =
        some (mkVStream "img" Codec.rawvideo ⟨Dtype.uint8, [100, 100, 3]⟩)) ∧
    (∃ name, (rebuildOne true [("f", (⟨Dtype.float32, []⟩ : FeatureType))] true
        (mkVStream "f" Codec.rawvideo ⟨Dtype.float32, []⟩)).meta.featureName = some name ∧
      (rebuildOne true [("f", (⟨Dtype.float32, []⟩ : FeatureType))] true
          (mkVStream "f" Codec.rawvideo ⟨Dtype.float32, []⟩)).encoding =
        encodingOfFeatureType ((mkTraj true).add "f" (scalarFloat 1) 0).lossy
          (assocGetD ((mkTraj true).add "f" (scalarFloat 1) 0).featureToType name
            ⟨Dtype.uint8, []⟩)) := by
  constructor
  · exact add_defers_codec_selection.1 (mkTraj true) "img"
      (Value.num Dtype.uint8 [100, 100, 3] []) 0 rfl
  · have hstreams : (transcodePickledImages ((mkTraj true).add "f" (scalarFloat 1) 0)
        5).container.streams =
        [rebuildOne true [("f", (⟨Dtype.float32, []⟩ : FeatureType))] true
          (mkVStream "f" Codec.rawvideo ⟨Dtype.float32, []⟩)] := rfl
    have hmem := List.mem_singleton_self (rebuildOne true
      [("f", (⟨Dtype.float32, []⟩ : FeatureType))] true
      (mkVStream "f" Codec.rawvideo ⟨Dtype.float32, []⟩))
    rw [← hstreams] at hmem
    exact add_defers_codec_selection.2 ((mkTraj true).add "f" (scalarFloat 1) 0) 5 _ hmem

/-- Claim C5: every stream the writer creates goes through
`_add_stream_to_container`, which appends a stream carrying both the
`FEATURE_NAME` and `FEATURE_TYPE` metadata keys and time base 1/1000;
and for `ffv1`/`libaom-av1` encodings the declared width equals
`FeatureType.shape[1]` and the height equals `FeatureType.shape[0]`
(the shape has at least two dimensions whenever the codec selector
picked a video codec). -/
theorem stream_creation_invariant (c : Container) (name : String) (enc : Codec)
    (ft : FeatureType) :
    (addStreamToContainer c name enc ft).1.streams = c.streams ++ [mkVStream name enc ft] ∧
    (mkVStream name enc ft).meta.featureName = some name ∧
    (mkVStream name enc ft).meta.featureType = some ft ∧
    (mkVStream name enc ft).timeBase = (1 : Rat) / 1000 ∧
    ((enc = Codec.ffv1 ∨ enc = Codec.libaom_av1) → 2 ≤ ft.shape.length →
      (mkVStream name enc ft).width = some (ft.shape.getD 1 0) ∧
      (mkVStream name enc ft).height = some (ft.shape.getD 0 0)) := by
  refine ⟨rfl, rfl, rfl, rfl, ?_⟩
  intro hv h2
  rcases hsh : ft.shape with - | ⟨a, - | ⟨b, rest⟩⟩
  · rw [hsh] at h2; simp at h2
  · rw [hsh] at h2; simp at h2
  · constructor <;> simp [mkVStream, hv, hsh]

/-- Witness for C5: the stream created for a (480, 640, 3) uint8
feature with the lossless video codec. -/
theorem stream_creation_invariant_witness :
    (mkVStream "img" Codec.ffv1 ⟨Dtype.uint8, [480, 640, 3]⟩).width = some 640 ∧
    (mkVStream "img" Codec.ffv1 ⟨Dtype.uint8, [480, 640, 3]⟩).height = some 480 ∧
    (mkVStream "img" Codec.ffv1 ⟨Dtype.uint8, [480, 640, 3]⟩).meta.featureName = some "img" ∧
    (mkVStream "img" Codec.ffv1 ⟨Dtype.uint8, [480, 640, 3]⟩).timeBase = (1 : Rat) / 1000 := by
  have h := stream_creation_invariant ⟨[], []⟩ "img" Codec.ffv1 ⟨Dtype.uint8, [480, 640, 3]⟩
  have hwh := h.2.2.2.2 (Or.inl rfl) (by decide)
  exact ⟨hwh.1, hwh.2, h.2.1, h.2.2.2.1⟩

/-- Claim C6: a float32 feature submitted to a video stream is scaled
by 255 and cast to uint8, reduced to its first channel when
3-dimensional, and becomes a single-channel `gray` frame; the reader
reads the gray plane, reshapes it to `FeatureType.shape`, and returns
the uint8-scale values without dividing by 255 — so a 2-D float32
feature round-trips to a single-channel array of the same shape holding
`uint8(value * 255)`. -/
theorem float32_gray_roundtrip (h w : Nat) (data : List Rat) :
    createFrameDepth (Value.num Dtype.float32 [h, w] data) =
      FrameData.gray [h, w] (data.map (fun q => npToUint8 (q * 255))) ∧
    (∀ (c : Nat) (data3 : List Rat),
      createFrameDepth (Value.num Dtype.float32 [h, w, c] data3) =
        FrameData.gray [h, w] ((List.range (h * w)).map (fun i =>
          (data3.map (fun q => npToUint8 (q * 255))).getD (i * c) 0))) ∧
    decodePacketValue Codec.ffv1 ⟨Dtype.float32, [h, w]⟩
        (PacketBody.frame (createFrameDepth (Value.num Dtype.float32 [h, w] data))) =
      some (Value.num Dtype.float32 [h, w]
        (data.map (fun q => ((npToUint8 (q * 255) : Nat) : Rat)))) := by
  refine ⟨?_, ?_, ?_⟩
  · simp [createFrameDepth]
  · intro c data3
    simp [createFrameDepth]
  · have h1 : createFrameDepth (Value.num Dtype.float32 [h, w] data) =
        FrameData.gray [h, w] (data.map (fun q => npToUint8 (q * 255))) := by
      simp [createFrameDepth]
    rw [h1]
    simp only [decodePacketValue, List.map_map]
    rfl

/-- Claim C7: with the default numpy return type and caching enabled,
calling `load` twice in a row returns equal per-feature maps; after the
first call the decoded cache exists, and the second call is served from
it without opening the container whenever the cache was absent (and so
was just written) or is readable; when the cache file exists `load`
never opens the container unless reading the cache fails, in which case
it falls back to a full container decode. -/
theorem load_served_from_cache (e : LoadEnv) (hc : e.containerPresent = true) :
    (loadNumpy (loadNumpy e).env).result = (loadNumpy e).result ∧
    (loadNumpy e).env.cachePresent = true ∧
    ((e.cachePresent = false ∨ e.cacheReadable = true) →
      (loadNumpy (loadNumpy e).env).openedContainer = false) ∧
    (e.cachePresent = true → e.cacheReadable = true →
      (loadNumpy e).openedContainer = false) ∧
    (e.cachePresent = true → e.cacheReadable = false →
      (loadNumpy e).result = Except.ok (loadFromContainer e.container)) := by
  by_cases hcp : e.cachePresent = true
  · by_cases hcr : e.cacheReadable = true
    · simp [loadNumpy, hcp, hcr]
    · rw [Bool.not_eq_true] at hcr
      simp [loadNumpy, hcp, hcr, hc]
  · rw [Bool.not_eq_true] at hcp
    by_cases hnp : (loadFromContainer e.container).isEmpty
    · simp [loadNumpy, hcp, hc, hnp]
    · simp [loadNumpy, hcp, hc, hnp]

/-- Witness for C7: two consecutive loads of a one-stream trajectory
starting with container present and no cache. -/
theorem load_served_from_cache_witness :
    (let e : LoadEnv := ⟨true, demoContainer, false, false, []⟩
     (loadNumpy (loadNumpy e).env).result = (loadNumpy e).result ∧
     (loadNumpy e).env.cachePresent = true ∧
     ((e.cachePresent = false ∨ e.cacheReadable = true) →
       (loadNumpy (loadNumpy e).env).openedContainer = false) ∧
     (e.cachePresent = true → e.cacheReadable = true →
       (loadNumpy e).openedContainer = false) ∧
     (e.cachePresent = true → e.cacheReadable = false →
       (loadNumpy e).result = Except.ok (loadFromContainer e.container))) :=
  load_served_from_cache ⟨true, demoContainer, false, false, []⟩ rfl

/-- Claim C8: `from_dict_of_lists` raises the unequal-length error
(`ValueError`, the spec's `ShapeMismatch`) whenever the flattened input
map contains two leaf sequences of different lengths, and whenever all
leaf sequences of a non-empty map share one length L it succeeds,
running exactly L `add_by_dict` steps and closing the trajectory. -/
theorem from_dict_of_lists_length_check :
    (∀ (columns : List (String × List Value)) (lossy : Bool) (k₁ k₂ : String)
      (l₁ l₂ : List Value), (k₁, l₁) ∈ columns → (k₂, l₂) ∈ columns →
      l₁.length ≠ l₂.length →
      fromDictOfLists columns lossy =
        Except.error ("All lists must have the same length", ⟨true, false⟩)) ∧
    (∀ (columns : List (String × List Value)) (lossy : Bool) (L : Nat),
      columns ≠ [] → (∀ kv ∈ columns, (kv.2 : List Value).length = L) →
      ∃ b, fromDictOfLists columns lossy = Except.ok b ∧ b.steps = L ∧
        b.fs = ⟨true, true⟩ ∧ b.traj.isClosed = true) := by
  constructor
  · intro columns lossy k₁ k₂ l₁ l₂ h₁ h₂ hne
    have hm₁ : l₁.length ∈ columns.map (fun kv => kv.2.length) :=
      List.mem_map.mpr ⟨(k₁, l₁), h₁, rfl⟩
    have hm₂ : l₂.length ∈ columns.map (fun kv => kv.2.length) :=
      List.mem_map.mpr ⟨(k₂, l₂), h₂, rfl⟩
    have hcond : (columns.map (fun kv => kv.2.length)).dedup.length ≠ 1 := by
      have h2 := two_mem_le_length (List.mem_dedup.mpr hm₁) (List.mem_dedup.mpr hm₂) hne
      omega
    unfold fromDictOfLists
    rw [if_pos hcond]
  · intro columns lossy L hne hall
    have hlens : ∀ y ∈ columns.map (fun kv => kv.2.length), y = L := by
      intro y hy
      obtain ⟨kv, hkv, rfl⟩ := List.mem_map.mp hy
      exact hall kv hkv
    have hnil : columns.map (fun kv => kv.2.length) ≠ [] := by
      intro hcontra
      exact hne (List.map_eq_nil_iff.mp hcontra)
    have hded : (columns.map (fun kv => kv.2.length)).dedup = [L] := dedup_all_eq hnil hlens
    have hcond : ¬ (columns.map (fun kv => kv.2.length)).dedup.length ≠ 1 := by
      rw [hded]
      simp
    have hhead : (columns.map (fun kv => kv.2.length)).headD 0 = L := by
      cases columns with
      | nil => exact absurd rfl hne
      | cons c cs =>
        simp only [List.map_cons, List.headD_cons]
        exact hall c (List.mem_cons_self c cs)
    unfold fromDictOfLists
    rw [if_neg hcond]
    dsimp only
    rw [hhead]
    have hopen := foldl_isClosed _
      (fun (t : Traj) (i : Nat) (h : t.isClosed = false) => addByDict_isClosed
        (columns.map (fun kv => (kv.1, kv.2.getD i (Value.num Dtype.uint8 [] [])))) (i : Int) t h)
      (List.range L) (mkTraj lossy) rfl
    rw [close_ok_of_open _ (L : Int) hopen]
    exact ⟨_, rfl, rfl, rfl, rfl⟩

/-- Witness for C8: the unequal-length map `{"x": [1,2,3], "y": [4,5]}`
errors; a two-column map with two entries each builds 2 steps. -/
theorem from_dict_of_lists_length_check_witness :
    fromDictOfLists c10Columns true =
      Except.error ("All lists must have the same length", ⟨true, false⟩) ∧
    (∃ b, fromDictOfLists [("x", [scalarInt 1, scalarInt 2]), ("y", [scalarInt 3, scalarInt 4])]
        true = Except.ok b ∧ b.steps = 2 ∧ b.fs = ⟨true, true⟩ ∧ b.traj.isClosed = true) := by
  constructor
  · exact from_dict_of_lists_length_check.1 c10Columns true "x" "y"
      [scalarInt 1, scalarInt 2, scalarInt 3] [scalarInt 4, scalarInt 5]
      (by decide) (by decide) (by decide)
  · exact from_dict_of_lists_length_check.2
      [("x", [scalarInt 1, scalarInt 2]), ("y", [scalarInt 3, scalarInt 4])] true 2
      (by decide) (by decide)

/-- Claim C4: for every trajectory the writer produces from a sequence
of `add`/`add_by_dict` operations under the monotone millisecond clock,
closing with `compact=True`, every muxed packet of the final file has
`pts = dts` equal to one of the integer millisecond clock readings, and
within each stream the muxed pts sequence is non-decreasing (ties
across streams permitted); flush packets are covered because the
statement ranges over every muxed packet (the modelled encoders hold no
buffered frames, so draining emits none). -/
theorem writer_packets_timestamped (lossy : Bool) (ops : List (WriteOp × Int)) (closeTs : Int)
    (hmono : List.Chain' (· ≤ ·) (ops.map Prod.snd ++ [closeTs])) :
    ∃ t', (runWriter lossy ops).close closeTs true = Except.ok t' ∧
      (∀ p ∈ t'.container.packets, p.pts = p.dts ∧
        ∃ v, p.pts = some v ∧ v ∈ ops.map Prod.snd) ∧
      ∀ i, List.Pairwise (· ≤ ·)
        ((t'.container.packets.filter (fun p => p.streamIndex = i)).map
          (fun p => p.pts.getD 0)) := by
  have hinv : WInv (runWriter lossy ops) closeTs (ops.map Prod.snd ++ []) := by
    unfold runWriter
    cases ops with
    | nil => exact mkTraj_inv lossy closeTs []
    | cons p rest =>
      refine runFold_inv closeTs (p :: rest) (mkTraj lossy) p.2 []
        (mkTraj_inv lossy p.2 []) ?_
      rw [List.map_cons, List.cons_append]
      rw [List.map_cons, List.cons_append] at hmono
      exact List.Chain.cons le_rfl hmono
  rw [List.append_nil] at hinv
  refine ⟨_, close_ok_of_open _ closeTs hinv.notClosed, ?_, ?_⟩
  · intro p hp
    obtain ⟨v, h1, h2, h4⟩ :=
      (transcode_inv (runWriter lossy ops) closeTs closeTs (ops.map Prod.snd) hinv).1 p hp
    exact ⟨by rw [h1, h2], v, h1, h4⟩
  · exact (transcode_inv (runWriter lossy ops) closeTs closeTs (ops.map Prod.snd) hinv).2

/-- Witness for C4: a two-step trace (one `add`, then an `add_by_dict`
carrying two features at one shared timestamp) closed at 10 ms. -/
theorem writer_packets_timestamped_witness :
    List.Chain' (· ≤ ·)
      (([((WriteOp.addOne "a" (scalarFloat 1) : WriteOp), (0 : Int)),
        (WriteOp.addDict [("a", scalarFloat 2), ("b", scalarFloat 3)], 5)].map Prod.snd) ++
        [(10 : Int)]) ∧
    ∃ t', (runWriter true [((WriteOp.addOne "a" (scalarFloat 1) : WriteOp), (0 : Int)),
        (WriteOp.addDict [("a", scalarFloat 2), ("b", scalarFloat 3)], 5)]).close 10 true =
        Except.ok t' ∧
      (∀ p ∈ t'.container.packets, p.pts = p.dts ∧
        ∃ v, p.pts = some v ∧
          v ∈ [((WriteOp.addOne "a" (scalarFloat 1) : WriteOp), (0 : Int)),
            (WriteOp.addDict [("a", scalarFloat 2), ("b", scalarFloat 3)], 5)].map Prod.snd) ∧
      ∀ i, List.Pairwise (· ≤ ·)
        ((t'.container.packets.filter (fun p => p.streamIndex = i)).map
          (fun p => p.pts.getD 0)) := by
  have hch : List.Chain' (· ≤ ·)
      (([((WriteOp.addOne "a" (scalarFloat 1) : WriteOp), (0 : Int)),
        (WriteOp.addDict [("a", scalarFloat 2), ("b", scalarFloat 3)], 5)].map Prod.snd) ++
        [(10 : Int)]) := by
    simp only [List.map_cons, List.map_nil, List.cons_append, List.nil_append]
    exact List.Chain'.cons (by norm_num)
      (List.Chain'.cons (by norm_num) (List.chain'_singleton _))
  exact ⟨hch,
    writer_packets_timestamped true
      [((WriteOp.addOne "a" (scalarFloat 1) : WriteOp), (0 : Int)),
       (WriteOp.addDict [("a", scalarFloat 2), ("b", scalarFloat 3)], 5)] 10 hch⟩

/-- Claim C9: for every trajectory open in write mode, the first
`close()` succeeds and marks the trajectory closed, and any second
`close()` raises (`ValueError`, the spec's `DoubleClose`) — the guard
runs before any file operation, so the error leaves the state (and
hence the file) untouched. -/
theorem close_rejects_double_close (t : Traj) (ts1 ts2 : Int) (compact1 compact2 : Bool)
    (h : t.isClosed = false) :
    ∃ t', t.close ts1 compact1 = Except.ok t' ∧ t'.isClosed = true ∧
      t'.close ts2 compact2 = Except.error "The container file is already closed" := by
  refine ⟨{ (if compact1 then transcodePickledImages t ts1 else t) with isClosed := true },
    ?_, rfl, ?_⟩
  · unfold Traj.close
    rw [h]
    simp
  · unfold Traj.close
    simp

/-- Witness for C9: a freshly opened writer closed twice. -/
theorem close_rejects_double_close_witness :
    (mkTraj true).isClosed = false ∧
    ∃ t', (mkTraj true).close 5 true = Except.ok t' ∧ t'.isClosed = true ∧
      t'.close 9 true = Except.error "The container file is already closed" :=
  ⟨rfl, close_rejects_double_close (mkTraj true) 5 9 true true rfl⟩

/-- Claim C10: whenever `from_dict_of_lists` raises the unequal-length
error, the container file at the target path was already created by the
writer's constructor (`av.open(self.path, mode="w")` runs inside
`Trajectory.__init__`, before the length validation), and the writer
was never closed — the failed call leaves a newly created, never-closed
container file behind. -/
theorem from_dict_of_lists_error_leaves_file (columns : List (String × List Value))
    (lossy : Bool) (msg : String) (fs : FSState)
    (h : fromDictOfLists columns lossy = Except.error (msg, fs)) :
    fs.fileCreated = true ∧ fs.writerClosed = false := by
  unfold fromDictOfLists at h
  dsimp only at h
  split at h
  · simp only [Except.error.injEq, Prod.mk.injEq] at h
    obtain ⟨-, h2⟩ := h
    subst h2
    exact ⟨rfl, rfl⟩
  · split at h
    · cases h
    · simp only [Except.error.injEq, Prod.mk.injEq] at h
      obtain ⟨-, h2⟩ := h
      subst h2
      exact ⟨rfl, rfl⟩

/-- Witness for C10: `from_dict_of_lists({"x": [1,2,3], "y": [4,5]})`
fails the length check and leaves the created, unclosed file. -/
theorem from_dict_of_lists_error_leaves_file_witness :
    fromDictOfLists c10Columns true =
      Except.error ("All lists must have the same length", ⟨true, false⟩) ∧
    ((⟨true, false⟩ : FSState).fileCreated = true ∧
      (⟨true, false⟩ : FSState).writerClosed = false) := by
  have heq : fromDictOfLists c10Columns true =
      Except.error ("All lists must have the same length", ⟨true, false⟩) := by rfl
  exact ⟨heq,
    from_dict_of_lists_error_leaves_file c10Columns true
      "All lists must have the same length" ⟨true, false⟩ heq⟩

end Robodm
